import Mathlib

/-!
# TaskManager: task lifecycle and in-memory repository

Shallow embedding of `src/source/index.ts` (classes `Task`, `TaskRepository`,
`TaskService`).  The DOM layer (`TaskView`, `TaskManager`) is out of scope.

Modelling conventions:
* `Date` values (`Date.now()` results and `dueDate`) are epoch-millisecond
  numbers in TypeScript; they are embedded as `Nat`.
* `status` is a plain string in the source (`"pendente"`, `"concluída"`);
  it is embedded as `String`.
* The mutable `tasks` array of `TaskRepository` becomes a `List Task`
  carried through explicit state passing; `TaskService` holds no state of
  its own beyond the repository, so its methods are functions on
  `TaskRepository`.
* `Date.now()` is an external input; `TaskService.createTask` takes the
  observed timestamp `now` as an explicit argument.
-/

namespace TaskManager

/-- Embedding of class `Task` (src/source/index.ts lines 2-34): public
fields `id`, `title`, `description`, `dueDate`, `status`. -/
structure Task where
  id : Nat
  title : String
  description : String
  dueDate : Nat
  status : String
deriving DecidableEq, Repr

namespace Task

/-- `Task.alterarStatus` (lines 15-17): `this.status = newStatus`. -/
def alterarStatus (t : Task) (newStatus : String) : Task :=
  { t with status := newStatus }

/-- `Task.alterarDescricao` (lines 23-25): `this.description = newDescription`. -/
def alterarDescricao (t : Task) (newDescription : String) : Task :=
  { t with description := newDescription }

/-- `Task.alterarDataVencimento` (lines 31-33): `this.dueDate = newDueDate`. -/
def alterarDataVencimento (t : Task) (newDueDate : Nat) : Task :=
  { t with dueDate := newDueDate }

/-- The status-independent part of a task (id, title, description, dueDate);
used to state that operations do not touch anything but `status`. -/
def core (t : Task) : Nat × String × String × Nat :=
  (t.id, t.title, t.description, t.dueDate)

end Task

/-- Embedding of class `TaskRepository` (lines 37-72): the private
`tasks: Task[]` array. -/
structure TaskRepository where
  tasks : List Task
deriving DecidableEq, Repr

namespace TaskRepository

/-- `TaskRepository.adicionarTarefa` (lines 44-46): `this.tasks.push(task)`. -/
def adicionarTarefa (r : TaskRepository) (task : Task) : TaskRepository :=
  ⟨r.tasks ++ [task]⟩

/-- `TaskRepository.removeTask` (lines 52-54):
`this.tasks = this.tasks.filter(task => task.id !== id)`. -/
def removeTask (r : TaskRepository) (id : Nat) : TaskRepository :=
  ⟨r.tasks.filter (fun task => task.id != id)⟩

/-- `TaskRepository.listarTarefas` (lines 60-62): `return this.tasks`. -/
def listarTarefas (r : TaskRepository) : List Task :=
  r.tasks

/-- `TaskRepository.buscarTarefaPorId` (lines 69-71):
`return this.tasks.find(task => task.id === id)` — first match or
`undefined`. -/
def buscarTarefaPorId (r : TaskRepository) (id : Nat) : Option Task :=
  r.tasks.find? (fun task => task.id == id)

end TaskRepository

/-- Replace the first task of the list whose id matches with the same task
with its status set to `"concluída"`; leave every other task untouched.
This is the effect on the array of `TaskService.taskDone` (lines 100-103):
`find` returns a live reference to the first matching array element, and
`alterarStatus` mutates that element in place. -/
def markFirstDone : List Task → Nat → List Task
  | [], _ => []
  | t :: ts, id =>
      if t.id == id then t.alterarStatus "concluída" :: ts
      else t :: markFirstDone ts id

namespace TaskService

/-- `TaskService.createTask` (lines 85-94): builds
`new Task(Date.now(), title, description, dueDate)` (so `status` takes its
default `"pendente"`), pushes it into the repository and returns it.  The
`Date.now()` observation is the explicit argument `now`. -/
def createTask (r : TaskRepository) (now : Nat) (title description : String)
    (dueDate : Nat) : Task × TaskRepository :=
  let task : Task := ⟨now, title, description, dueDate, "pendente"⟩
  (task, r.adicionarTarefa task)

/-- `TaskService.taskDone` (lines 100-103): look up the task by id; if
found, set its status to `"concluída"` in place; otherwise do nothing. -/
def taskDone (r : TaskRepository) (id : Nat) : TaskRepository :=
  ⟨markFirstDone r.tasks id⟩

/-- `TaskService.removeTask` (lines 109-111): delegates to
`TaskRepository.removeTask`. -/
def removeTask (r : TaskRepository) (id : Nat) : TaskRepository :=
  r.removeTask id

/-- `TaskService.listarTarefas` (lines 117-119): delegates to
`TaskRepository.listarTarefas`. -/
def listarTarefas (r : TaskRepository) : List Task :=
  r.listarTarefas

end TaskService

/-- One lifecycle operation, as exposed to the presentation layer:
create (with the `Date.now()` value it observes), markDone, remove,
listAll. -/
inductive Op where
  | create (now : Nat) (title description : String) (dueDate : Nat)
  | markDone (id : Nat)
  | remove (id : Nat)
  | listAll
deriving DecidableEq, Repr

/-- Apply one lifecycle operation to the repository state.  `listAll` is a
pure read and leaves the state unchanged. -/
def applyOp (r : TaskRepository) : Op → TaskRepository
  | Op.create now title description dueDate =>
      (TaskService.createTask r now title description dueDate).2
  | Op.markDone id => TaskService.taskDone r id
  | Op.remove id => TaskService.removeTask r id
  | Op.listAll => r

/-- Apply a sequence of lifecycle operations, left to right. -/
def applyOps (r : TaskRepository) (ops : List Op) : TaskRepository :=
  ops.foldl applyOp r

/-- Run a sequence of create calls (each a tuple of the observed timestamp,
title, description and dueDate), left to right. -/
def createAll (r : TaskRepository) : List (Nat × String × String × Nat) → TaskRepository
  | [] => r
  | (now, title, description, dueDate) :: rest =>
      createAll (TaskService.createTask r now title description dueDate).2 rest

/-- Every task of the repository carries one of the two statuses the
lifecycle ever writes: the creation default `"pendente"` or the
`taskDone` value `"concluída"`. -/
def statusWF (r : TaskRepository) : Prop :=
  ∀ t ∈ r.tasks, t.status = "pendente" ∨ t.status = "concluída"

/-- A repository state reachable from the initial empty repository by
lifecycle operations (this is how `TaskManager.iniciar` only ever builds
states: it starts from `new TaskRepository()` and wires the UI to
`createTask`, `taskDone`, `removeTask`, `listarTarefas`). -/
def Reachable (r : TaskRepository) : Prop :=
  ∃ ops : List Op, applyOps ⟨[]⟩ ops = r

/-! ## Helper lemmas -/

theorem alterarStatus_core (t : Task) (s : String) :
    (t.alterarStatus s).core = t.core := rfl

theorem alterarStatus_id (t : Task) (s : String) :
    (t.alterarStatus s).id = t.id := rfl

theorem markFirstDone_of_not_mem (ts : List Task) (id : Nat)
    (h : ∀ t ∈ ts, t.id ≠ id) : markFirstDone ts id = ts := by
  induction ts with
  | nil => rfl
  | cons t ts ih =>
    have h1 : (t.id == id) = false := by
      simpa using h t (List.mem_cons_self t ts)
    simp only [markFirstDone, h1, Bool.false_eq_true, if_false, List.cons.injEq,
      true_and]
    exact ih fun u hu => h u (List.mem_cons_of_mem _ hu)

theorem markFirstDone_map_core (ts : List Task) (id : Nat) :
    (markFirstDone ts id).map Task.core = ts.map Task.core := by
  induction ts with
  | nil => rfl
  | cons t ts ih =>
    cases hti : t.id == id with
    | true => simp [markFirstDone, hti, alterarStatus_core]
    | false => simp [markFirstDone, hti, ih]

theorem markFirstDone_idem (ts : List Task) (id : Nat) :
    markFirstDone (markFirstDone ts id) id = markFirstDone ts id := by
  induction ts with
  | nil => rfl
  | cons t ts ih =>
    cases hti : t.id == id with
    | true => simp [markFirstDone, hti, Task.alterarStatus]
    | false => simp [markFirstDone, hti, ih]

theorem mem_markFirstDone {ts : List Task} {id : Nat} {u : Task}
    (h : u ∈ markFirstDone ts id) :
    u ∈ ts ∨ ∃ t ∈ ts, u = t.alterarStatus "concluída" := by
  induction ts with
  | nil => simp [markFirstDone] at h
  | cons t ts ih =>
    cases hti : t.id == id with
    | true =>
      simp only [markFirstDone, hti, if_true, List.mem_cons] at h
      rcases h with h | h
      · exact Or.inr ⟨t, List.mem_cons_self t ts, h⟩
      · exact Or.inl (List.mem_cons_of_mem _ h)
    | false =>
      simp only [markFirstDone, hti, Bool.false_eq_true, if_false,
        List.mem_cons] at h
      rcases h with h | h
      · exact Or.inl (h ▸ List.mem_cons_self t ts)
      · rcases ih h with h' | ⟨v, hv, hv'⟩
        · exact Or.inl (List.mem_cons_of_mem _ h')
        · exact Or.inr ⟨v, List.mem_cons_of_mem _ hv, hv'⟩

/-- Decomposition of a task list at its first task carrying `id`: `find`
returns exactly that task, and `markFirstDone` rewrites exactly its status. -/
theorem markFirstDone_decomp (ts : List Task) (id : Nat)
    (h : ∃ t ∈ ts, t.id = id) :
    ∃ l1 t l2, ts = l1 ++ t :: l2 ∧ t.id = id ∧ (∀ u ∈ l1, u.id ≠ id) ∧
      ts.find? (fun u => u.id == id) = some t ∧
      markFirstDone ts id = l1 ++ t.alterarStatus "concluída" :: l2 := by
  induction ts with
  | nil => simp at h
  | cons t ts ih =>
    cases hti : t.id == id with
    | true =>
      refine ⟨[], t, ts, rfl, by simpa using hti, by simp, ?_, ?_⟩
      · simp [List.find?_cons_of_pos, hti]
      · simp [markFirstDone, hti]
    | false =>
      have hne : t.id ≠ id := by simpa using hti
      obtain ⟨u, hu, huid⟩ := h
      have hu' : u ∈ ts := by
        rcases List.mem_cons.mp hu with h' | h'
        · exact absurd (h' ▸ huid) hne
        · exact h'
      obtain ⟨l1, v, l2, hts, hvid, hl1, hfind, hmark⟩ := ih ⟨u, hu', huid⟩
      refine ⟨t :: l1, v, l2, by rw [List.cons_append, hts], hvid, ?_, ?_, ?_⟩
      · intro w hw
        rcases List.mem_cons.mp hw with h' | h'
        · exact h' ▸ hne
        · exact hl1 w h'
      · rw [List.find?_cons_of_neg _ (by simpa using hne)]
        exact hfind
      · simp only [markFirstDone, hti, Bool.false_eq_true, if_false,
          List.cons_append, List.cons.injEq, true_and]
        exact hmark

/-- Looking up an id after `markFirstDone` on that id yields the same first
task with its status set to `"concluída"`. -/
theorem find?_markFirstDone (ts : List Task) (id : Nat) (t : Task)
    (ht : ts.find? (fun u => u.id == id) = some t) :
    (markFirstDone ts id).find? (fun u => u.id == id)
      = some (t.alterarStatus "concluída") := by
  have htmem : t ∈ ts := List.mem_of_find?_eq_some ht
  have htid := List.find?_some ht
  obtain ⟨l1, v, l2, hts, hvid, hl1, hfind, hmark⟩ :=
    markFirstDone_decomp ts id ⟨t, htmem, by simpa using htid⟩
  have hv : v = t := by
    rw [ht] at hfind
    exact (Option.some.inj hfind).symm
  subst hv
  rw [hmark, List.find?_append]
  have hl1' : l1.find? (fun u => u.id == id) = none :=
    List.find?_eq_none.mpr fun x hx => by simpa using hl1 x hx
  rw [hl1', Option.none_or]
  exact List.find?_cons_of_pos _ (by simpa using hvid)

/-- Transitivity of the allowed status evolution (stay, or move from
`"pendente"` to `"concluída"`). -/
theorem statusStep_trans {a b c : String}
    (h1 : b = a ∨ (a = "pendente" ∧ b = "concluída"))
    (h2 : c = b ∨ (b = "pendente" ∧ c = "concluída")) :
    c = a ∨ (a = "pendente" ∧ c = "concluída") := by
  rcases h1 with h1 | ⟨h1a, h1b⟩
  · rcases h2 with h2 | ⟨h2a, h2b⟩
    · exact Or.inl (h2.trans h1)
    · exact Or.inr ⟨h1 ▸ h2a, h2b⟩
  · rcases h2 with h2 | ⟨h2a, h2b⟩
    · exact Or.inr ⟨h1a, h2.trans h1b⟩
    · exact absurd (h1b.symm.trans h2a) (by decide)

/-- One lifecycle operation: every task of the new state either comes from
a task of the old state — same id, title, description and dueDate, status
unchanged or moved `"pendente"` → `"concluída"` — or is freshly created
with status `"pendente"`. -/
theorem applyOp_evolution (r : TaskRepository) (hr : statusWF r) (op : Op) :
    ∀ u ∈ (applyOp r op).tasks,
      (∃ t ∈ r.tasks, t.core = u.core ∧
        (u.status = t.status ∨ (t.status = "pendente" ∧ u.status = "concluída")))
      ∨ u.status = "pendente" := by
  intro u hu
  cases op with
  | create now title description dueDate =>
    simp only [applyOp, TaskService.createTask, TaskRepository.adicionarTarefa,
      List.mem_append, List.mem_singleton] at hu
    rcases hu with hu | hu
    · exact Or.inl ⟨u, hu, rfl, Or.inl rfl⟩
    · subst hu
      exact Or.inr rfl
  | markDone id =>
    have hu' : u ∈ markFirstDone r.tasks id := hu
    rcases mem_markFirstDone hu' with h | ⟨t, ht, rfl⟩
    · exact Or.inl ⟨u, h, rfl, Or.inl rfl⟩
    · rcases hr t ht with hp | hc
      · exact Or.inl ⟨t, ht, rfl, Or.inr ⟨hp, rfl⟩⟩
      · exact Or.inl ⟨t, ht, rfl, Or.inl hc.symm⟩
  | remove id =>
    have hu' : u ∈ r.tasks.filter (fun task => task.id != id) := hu
    exact Or.inl ⟨u, (List.mem_filter.mp hu').1, rfl, Or.inl rfl⟩
  | listAll =>
    exact Or.inl ⟨u, hu, rfl, Or.inl rfl⟩

theorem statusWF_applyOp (r : TaskRepository) (hr : statusWF r) (op : Op) :
    statusWF (applyOp r op) := by
  intro u hu
  rcases applyOp_evolution r hr op u hu with ⟨t, ht, _, hstep⟩ | hp
  · rcases hstep with h | ⟨_, h⟩
    · exact h ▸ hr t ht
    · exact Or.inr h
  · exact Or.inl hp

theorem statusWF_applyOps (ops : List Op) (r : TaskRepository)
    (hr : statusWF r) : statusWF (applyOps r ops) := by
  induction ops generalizing r with
  | nil => exact hr
  | cons op ops ih => exact ih (applyOp r op) (statusWF_applyOp r hr op)

theorem statusWF_of_reachable {r : TaskRepository} (h : Reachable r) :
    statusWF r := by
  obtain ⟨ops, rfl⟩ := h
  refine statusWF_applyOps ops ⟨[]⟩ ?_
  intro t ht
  simp at ht

/-- Any sequence of lifecycle operations: every task of the final state
either comes from a task of the starting state — same id, title,
description and dueDate, status unchanged or moved `"pendente"` →
`"concluída"` — or was created during the sequence and carries one of the
two lifecycle statuses. -/
theorem applyOps_evolution (ops : List Op) (r : TaskRepository)
    (hr : statusWF r) :
    ∀ u ∈ (applyOps r ops).tasks,
      (∃ t ∈ r.tasks, t.core = u.core ∧
        (u.status = t.status ∨ (t.status = "pendente" ∧ u.status = "concluída")))
      ∨ (u.status = "pendente" ∨ u.status = "concluída") := by
  induction ops generalizing r with
  | nil =>
    intro u hu
    exact Or.inl ⟨u, hu, rfl, Or.inl rfl⟩
  | cons op ops ih =>
    intro u hu
    have hu' : u ∈ (applyOps (applyOp r op) ops).tasks := hu
    rcases ih (applyOp r op) (statusWF_applyOp r hr op) u hu' with
      ⟨v, hv, hcore, hstep⟩ | hp
    · rcases applyOp_evolution r hr op v hv with ⟨t, ht, hcore', hstep'⟩ | hvp
      · exact Or.inl ⟨t, ht, hcore'.trans hcore, statusStep_trans hstep' hstep⟩
      · rcases hstep with h | ⟨_, h⟩
        · exact Or.inr (Or.inl (h.trans hvp))
        · exact Or.inr (Or.inr h)
    · exact Or.inr hp

theorem get_congr {α : Type} {l l' : List α} (h : l = l') (n : Nat)
    (hn : n < l.length) : l.get ⟨n, hn⟩ = l'.get ⟨n, h ▸ hn⟩ := by
  cases h
  rfl

theorem get_append_left {α : Type} :
    ∀ (l1 l2 : List α) (n : Nat) (hn : n < (l1 ++ l2).length)
      (hl : n < l1.length), (l1 ++ l2).get ⟨n, hn⟩ = l1.get ⟨n, hl⟩ := by
  intro l1
  induction l1 with
  | nil =>
    intro l2 n hn hl
    exact absurd hl (Nat.not_lt_zero n)
  | cons x l1 ih =>
    intro l2 n hn hl
    cases n with
    | zero => rfl
    | succ m => exact ih l2 m (Nat.lt_of_succ_lt_succ hn) (Nat.lt_of_succ_lt_succ hl)

/-- Two lists that agree except at the position right after `l1` have equal
entries at every other position. -/
theorem get_append_cons_ne {α : Type} :
    ∀ (l1 : List α) (a b : α) (l2 : List α) (n : Nat)
      (hn : n < (l1 ++ a :: l2).length) (hn' : n < (l1 ++ b :: l2).length),
      n ≠ l1.length →
      (l1 ++ b :: l2).get ⟨n, hn'⟩ = (l1 ++ a :: l2).get ⟨n, hn⟩ := by
  intro l1
  induction l1 with
  | nil =>
    intro a b l2 n hn hn' hne
    cases n with
    | zero => exact absurd rfl hne
    | succ m => rfl
  | cons x l1 ih =>
    intro a b l2 n hn hn' hne
    cases n with
    | zero => rfl
    | succ m =>
      exact ih a b l2 m (Nat.lt_of_succ_lt_succ hn) (Nat.lt_of_succ_lt_succ hn')
        fun hh => hne (by simp [hh])

/-! ## Claims -/

/-- C4: `listarTarefas` returns the store's tasks in their insertion order
(it is the identity on the underlying list); `adicionarTarefa` appends at
the end; `removeTask` keeps the surviving tasks as a sublist (so in their
original relative order); `taskDone` keeps the number, order and identity
of all entries (only a status can change). -/
theorem listing_preserves_insertion_order (r : TaskRepository) (id : Nat) (t : Task) :
    TaskService.listarTarefas r = r.tasks ∧
    (r.adicionarTarefa t).tasks = r.tasks ++ [t] ∧
    List.Sublist (TaskService.removeTask r id).tasks r.tasks ∧
    (TaskService.taskDone r id).tasks.map Task.core = r.tasks.map Task.core :=
  ⟨rfl, rfl, List.filter_sublist r.tasks, markFirstDone_map_core r.tasks id⟩

/-- C5: `removeTask` removes every task whose id matches — after it, no
listed task carries that id — and running it a second time with the same id
changes nothing (no-op, no error). -/
theorem removeById_removes_all_and_idempotent (r : TaskRepository) (id : Nat) :
    (∀ t ∈ TaskService.listarTarefas (TaskService.removeTask r id), t.id ≠ id) ∧
    TaskService.removeTask (TaskService.removeTask r id) id
      = TaskService.removeTask r id := by
  constructor
  · intro t ht
    have := (List.mem_filter.mp ht).2
    simpa using this
  · simp [TaskService.removeTask, TaskRepository.removeTask, List.filter_filter]

theorem removeById_removes_all_and_idempotent_witness :
    ((⟨2, "c", "d", 0, "pendente"⟩ : Task).id ≠ 1) ∧
    TaskService.removeTask
        (TaskService.removeTask ⟨[⟨1, "a", "b", 0, "pendente"⟩,
          ⟨2, "c", "d", 0, "pendente"⟩]⟩ 1) 1
      = TaskService.removeTask ⟨[⟨1, "a", "b", 0, "pendente"⟩,
          ⟨2, "c", "d", 0, "pendente"⟩]⟩ 1 :=
  ⟨(removeById_removes_all_and_idempotent
      ⟨[⟨1, "a", "b", 0, "pendente"⟩, ⟨2, "c", "d", 0, "pendente"⟩]⟩ 1).1
      ⟨2, "c", "d", 0, "pendente"⟩ (by decide),
    (removeById_removes_all_and_idempotent
      ⟨[⟨1, "a", "b", 0, "pendente"⟩, ⟨2, "c", "d", 0, "pendente"⟩]⟩ 1).2⟩

/-- C6: when the lookup finds a task, `taskDone` sets exactly that task's
status to `"concluída"` (looking the id up afterwards returns the same task
with the new status); when the lookup finds nothing, `taskDone` leaves the
repository untouched. -/
theorem markDone_sets_found_status (r : TaskRepository) (id : Nat) :
    (∀ t, r.buscarTarefaPorId id = some t →
        (TaskService.taskDone r id).buscarTarefaPorId id
          = some (t.alterarStatus "concluída")) ∧
    (r.buscarTarefaPorId id = none → TaskService.taskDone r id = r) := by
  constructor
  · intro t ht
    exact find?_markFirstDone r.tasks id t ht
  · intro h
    have h' := List.find?_eq_none.mp h
    show (⟨markFirstDone r.tasks id⟩ : TaskRepository) = r
    rw [markFirstDone_of_not_mem r.tasks id fun u hu => by simpa using h' u hu]

theorem markDone_sets_found_status_witness :
    (TaskService.taskDone ⟨[⟨7, "t", "d", 3, "pendente"⟩]⟩ 7).buscarTarefaPorId 7
        = some ((⟨7, "t", "d", 3, "pendente"⟩ : Task).alterarStatus "concluída") ∧
    TaskService.taskDone ⟨[⟨7, "t", "d", 3, "pendente"⟩]⟩ 9
      = ⟨[⟨7, "t", "d", 3, "pendente"⟩]⟩ :=
  ⟨(markDone_sets_found_status ⟨[⟨7, "t", "d", 3, "pendente"⟩]⟩ 7).1
      ⟨7, "t", "d", 3, "pendente"⟩ (by decide),
    (markDone_sets_found_status ⟨[⟨7, "t", "d", 3, "pendente"⟩]⟩ 9).2 (by decide)⟩

/-- C7: on an id not present in the store, both `taskDone` and `removeTask`
return the repository exactly as it was (every field of every task, same
sequence), and no error path exists. -/
theorem missing_id_ops_noop (r : TaskRepository) (id : Nat)
    (h : ∀ t ∈ r.tasks, t.id ≠ id) :
    TaskService.taskDone r id = r ∧ TaskService.removeTask r id = r := by
  constructor
  · show (⟨markFirstDone r.tasks id⟩ : TaskRepository) = r
    rw [markFirstDone_of_not_mem r.tasks id h]
  · show (⟨r.tasks.filter fun task => task.id != id⟩ : TaskRepository) = r
    rw [List.filter_eq_self.mpr fun a ha => by simpa using h a ha]

theorem missing_id_ops_noop_witness :
    TaskService.taskDone ⟨[⟨7, "t", "d", 3, "pendente"⟩]⟩ 9
        = ⟨[⟨7, "t", "d", 3, "pendente"⟩]⟩ ∧
    TaskService.removeTask ⟨[⟨7, "t", "d", 3, "pendente"⟩]⟩ 9
      = ⟨[⟨7, "t", "d", 3, "pendente"⟩]⟩ :=
  missing_id_ops_noop ⟨[⟨7, "t", "d", 3, "pendente"⟩]⟩ 9 (by decide)

/-- C8: when a task with the id exists, after `taskDone` the task found
under that id has status `"concluída"`, and running `taskDone` again with
the same id leaves the repository state identical (idempotence). -/
theorem markDone_idempotent (r : TaskRepository) (id : Nat)
    (h : ∃ t ∈ r.tasks, t.id = id) :
    (∃ t, (TaskService.taskDone r id).buscarTarefaPorId id = some t ∧
        t.status = "concluída") ∧
    TaskService.taskDone (TaskService.taskDone r id) id
      = TaskService.taskDone r id := by
  constructor
  · obtain ⟨l1, t, l2, hts, htid, hl1, hfind, hmark⟩ :=
      markFirstDone_decomp r.tasks id h
    exact ⟨t.alterarStatus "concluída", find?_markFirstDone r.tasks id t hfind, rfl⟩
  · show (⟨markFirstDone (TaskService.taskDone r id).tasks id⟩ : TaskRepository) = _
    rw [show (TaskService.taskDone r id).tasks = markFirstDone r.tasks id from rfl,
      markFirstDone_idem]
    rfl

theorem markDone_idempotent_witness :
    (∃ t, (TaskService.taskDone ⟨[⟨7, "t", "d", 3, "pendente"⟩]⟩ 7).buscarTarefaPorId 7
        = some t ∧ t.status = "concluída") ∧
    TaskService.taskDone (TaskService.taskDone ⟨[⟨7, "t", "d", 3, "pendente"⟩]⟩ 7) 7
      = TaskService.taskDone ⟨[⟨7, "t", "d", 3, "pendente"⟩]⟩ 7 :=
  markDone_idempotent ⟨[⟨7, "t", "d", 3, "pendente"⟩]⟩ 7
    ⟨⟨7, "t", "d", 3, "pendente"⟩, by decide, by decide⟩

/-- C2: from any reachable store state, under any sequence of lifecycle
operations, every task of the resulting state either descends from a task
of the starting state with the same id, title, description and dueDate and
a status that is unchanged or moved `"pendente"` → `"concluída"` (so a
done task never returns to pending), or was created during the sequence and
carries one of the two lifecycle statuses; moreover every operation other
than `markDone` returns each surviving task exactly as it was (only
`markDone` ever changes a status), and removal never shows up as a status —
a removed task simply no longer appears. -/
theorem status_transitions_monotone (r : TaskRepository) (hr : Reachable r)
    (ops : List Op) :
    (∀ u ∈ (applyOps r ops).tasks,
      (∃ t ∈ r.tasks, t.core = u.core ∧
        (u.status = t.status ∨ (t.status = "pendente" ∧ u.status = "concluída")))
      ∨ (u.status = "pendente" ∨ u.status = "concluída")) ∧
    (∀ op : Op, (∀ id, op ≠ Op.markDone id) →
      ∀ u ∈ (applyOp r op).tasks, u ∈ r.tasks ∨ u.status = "pendente") := by
  refine ⟨applyOps_evolution ops r (statusWF_of_reachable hr), ?_⟩
  intro op hop u hu
  cases op with
  | create now title description dueDate =>
    simp only [applyOp, TaskService.createTask, TaskRepository.adicionarTarefa,
      List.mem_append, List.mem_singleton] at hu
    rcases hu with hu | hu
    · exact Or.inl hu
    · subst hu
      exact Or.inr rfl
  | markDone id => exact absurd rfl (hop id)
  | remove id =>
    have hu' : u ∈ r.tasks.filter (fun task => task.id != id) := hu
    exact Or.inl (List.mem_filter.mp hu').1
  | listAll => exact Or.inl hu

theorem status_transitions_monotone_witness :
    ((∃ t ∈ (⟨[]⟩ : TaskRepository).tasks,
        t.core = (⟨1, "a", "b", 0, "concluída"⟩ : Task).core ∧
        ((⟨1, "a", "b", 0, "concluída"⟩ : Task).status = t.status ∨
          (t.status = "pendente" ∧
            (⟨1, "a", "b", 0, "concluída"⟩ : Task).status = "concluída")))
    ∨ ((⟨1, "a", "b", 0, "concluída"⟩ : Task).status = "pendente" ∨
        (⟨1, "a", "b", 0, "concluída"⟩ : Task).status = "concluída")) ∧
    ((⟨1, "a", "b", 0, "pendente"⟩ : Task) ∈ (⟨[]⟩ : TaskRepository).tasks ∨
      (⟨1, "a", "b", 0, "pendente"⟩ : Task).status = "pendente") :=
  ⟨(status_transitions_monotone ⟨[]⟩ ⟨[], rfl⟩
      [Op.create 1 "a" "b" 0, Op.markDone 1]).1
      ⟨1, "a", "b", 0, "concluída"⟩ (by decide),
    (status_transitions_monotone ⟨[]⟩ ⟨[], rfl⟩ []).2
      (Op.create 1 "a" "b" 0) (fun id h => Op.noConfusion h)
      ⟨1, "a", "b", 0, "pendente"⟩ (by decide)⟩

/-- C9: when a task with the id exists, `taskDone` rewrites the store as
`prefix ++ first-match :: suffix` where the prefix (tasks before the first
match, none of which carry the id) and the suffix are kept verbatim, and
the first match keeps its id, title, description and dueDate, only its
status becoming `"concluída"`; the number of tasks is unchanged. -/
theorem markDone_frame (r : TaskRepository) (id : Nat)
    (h : ∃ t ∈ r.tasks, t.id = id) :
    ∃ l1 t l2, r.tasks = l1 ++ t :: l2 ∧ t.id = id ∧ (∀ u ∈ l1, u.id ≠ id) ∧
      (TaskService.taskDone r id).tasks
        = l1 ++ (⟨t.id, t.title, t.description, t.dueDate, "concluída"⟩ : Task) :: l2 ∧
      (TaskService.taskDone r id).tasks.length = r.tasks.length := by
  obtain ⟨l1, t, l2, hts, htid, hl1, hfind, hmark⟩ :=
    markFirstDone_decomp r.tasks id h
  refine ⟨l1, t, l2, hts, htid, hl1, hmark, ?_⟩
  show (markFirstDone r.tasks id).length = r.tasks.length
  rw [hmark, hts]
  simp

theorem markDone_frame_witness :
    ∃ l1 t l2,
      (⟨[⟨7, "t", "d", 3, "pendente"⟩, ⟨8, "u", "e", 4, "pendente"⟩]⟩ :
          TaskRepository).tasks = l1 ++ t :: l2 ∧ t.id = 7 ∧
      (∀ u ∈ l1, u.id ≠ 7) ∧
      (TaskService.taskDone
          ⟨[⟨7, "t", "d", 3, "pendente"⟩, ⟨8, "u", "e", 4, "pendente"⟩]⟩ 7).tasks
        = l1 ++ (⟨t.id, t.title, t.description, t.dueDate, "concluída"⟩ : Task) :: l2 ∧
      (TaskService.taskDone
          ⟨[⟨7, "t", "d", 3, "pendente"⟩, ⟨8, "u", "e", 4, "pendente"⟩]⟩ 7).tasks.length
        = (⟨[⟨7, "t", "d", 3, "pendente"⟩, ⟨8, "u", "e", 4, "pendente"⟩]⟩ :
            TaskRepository).tasks.length :=
  markDone_frame ⟨[⟨7, "t", "d", 3, "pendente"⟩, ⟨8, "u", "e", 4, "pendente"⟩]⟩ 7
    ⟨⟨7, "t", "d", 3, "pendente"⟩, by decide, by decide⟩

/-- C10: with two positions `i < j` holding the same id, the store
decomposes as `l1 ++ t :: l2` at the first task carrying that id (which is
at or before position `i`); `buscarTarefaPorId` returns exactly that first
task, `taskDone` rewrites only that first task (the task at position `j`
is returned unchanged), and `removeTask` removes every task carrying the
id, the duplicates included. -/
theorem duplicate_id_semantics (r : TaskRepository) (id : Nat) (i j : Nat)
    (hij : i < j) (hj : j < r.tasks.length) (hi2 : i < r.tasks.length)
    (hi : (r.tasks.get ⟨i, hi2⟩).id = id)
    (hjid : (r.tasks.get ⟨j, hj⟩).id = id) :
    ∃ l1 t l2, r.tasks = l1 ++ t :: l2 ∧ t.id = id ∧ (∀ u ∈ l1, u.id ≠ id) ∧
      l1.length ≤ i ∧
      r.buscarTarefaPorId id = some t ∧
      (TaskService.taskDone r id).tasks = l1 ++ t.alterarStatus "concluída" :: l2 ∧
      (∃ hj2 : j < (TaskService.taskDone r id).tasks.length,
          (TaskService.taskDone r id).tasks.get ⟨j, hj2⟩ = r.tasks.get ⟨j, hj⟩) ∧
      ∀ u ∈ (TaskService.removeTask r id).tasks, u.id ≠ id := by
  obtain ⟨l1, t, l2, hts, htid, hl1, hfind, hmark⟩ :=
    markFirstDone_decomp r.tasks id ⟨r.tasks.get ⟨i, hi2⟩, List.get_mem r.tasks i hi2, hi⟩
  have hlen1 : l1.length ≤ i := by
    by_contra hcon
    push_neg at hcon
    have e1 : r.tasks.get ⟨i, hi2⟩ = l1.get ⟨i, hcon⟩ := by
      rw [get_congr hts i hi2]
      exact get_append_left l1 (t :: l2) i (hts ▸ hi2) hcon
    have : (l1.get ⟨i, hcon⟩).id = id := by
      rw [← e1]
      exact hi
    exact hl1 (l1.get ⟨i, hcon⟩) (List.get_mem l1 i hcon) this
  have hlen : (TaskService.taskDone r id).tasks.length = r.tasks.length := by
    show (markFirstDone r.tasks id).length = r.tasks.length
    rw [hmark, hts]
    simp
  have hb1 : j < (TaskService.taskDone r id).tasks.length := hlen.symm ▸ hj
  refine ⟨l1, t, l2, hts, htid, hl1, hlen1, hfind, hmark, ⟨hb1, ?_⟩, ?_⟩
  · have hlt : l1.length < j := Nat.lt_of_le_of_lt hlen1 hij
    calc (TaskService.taskDone r id).tasks.get ⟨j, hb1⟩
        = (l1 ++ t.alterarStatus "concluída" :: l2).get ⟨j, hmark ▸ hb1⟩ :=
          get_congr hmark j hb1
      _ = (l1 ++ t :: l2).get ⟨j, hts ▸ hj⟩ :=
          get_append_cons_ne l1 t (t.alterarStatus "concluída") l2 j
            (hts ▸ hj) (hmark ▸ hb1) (Nat.ne_of_lt hlt).symm
      _ = r.tasks.get ⟨j, hj⟩ := (get_congr hts j hj).symm
  · intro u hu
    have hu' : u ∈ r.tasks.filter (fun task => task.id != id) := hu
    have := (List.mem_filter.mp hu').2
    simpa using this

theorem duplicate_id_semantics_witness :
    ∃ l1 t l2,
      (⟨[⟨5, "a", "b", 0, "pendente"⟩, ⟨5, "c", "d", 1, "pendente"⟩]⟩ :
          TaskRepository).tasks = l1 ++ t :: l2 ∧ t.id = 5 ∧
      (∀ u ∈ l1, u.id ≠ 5) ∧
      l1.length ≤ 0 ∧
      TaskRepository.buscarTarefaPorId
          ⟨[⟨5, "a", "b", 0, "pendente"⟩, ⟨5, "c", "d", 1, "pendente"⟩]⟩ 5 = some t ∧
      (TaskService.taskDone
          ⟨[⟨5, "a", "b", 0, "pendente"⟩, ⟨5, "c", "d", 1, "pendente"⟩]⟩ 5).tasks
        = l1 ++ t.alterarStatus "concluída" :: l2 ∧
      (∃ hj2 : 1 < (TaskService.taskDone
            ⟨[⟨5, "a", "b", 0, "pendente"⟩, ⟨5, "c", "d", 1, "pendente"⟩]⟩ 5).tasks.length,
          (TaskService.taskDone
              ⟨[⟨5, "a", "b", 0, "pendente"⟩, ⟨5, "c", "d", 1, "pendente"⟩]⟩ 5).tasks.get
              ⟨1, hj2⟩
            = (⟨[⟨5, "a", "b", 0, "pendente"⟩, ⟨5, "c", "d", 1, "pendente"⟩]⟩ :
                TaskRepository).tasks.get ⟨1, by decide⟩) ∧
      ∀ u ∈ (TaskService.removeTask
          ⟨[⟨5, "a", "b", 0, "pendente"⟩, ⟨5, "c", "d", 1, "pendente"⟩]⟩ 5).tasks,
        u.id ≠ 5 :=
  duplicate_id_semantics
    ⟨[⟨5, "a", "b", 0, "pendente"⟩, ⟨5, "c", "d", 1, "pendente"⟩]⟩ 5 0 1
    (by decide) (by decide) (by decide) (by decide) (by decide)

/-- C1 (counterexample): `createTask` takes the id from the observed
`Date.now()` value, so two calls observing the same millisecond (here 5)
assign the same id: the second returned task's id equals the id of a task
already in the store, and the store then holds two distinct tasks with the
same id. -/
theorem create_ids_unique_counterexample :
    (TaskService.createTask
        (TaskService.createTask ⟨[]⟩ 5 "Buy milk" "2% fat" 10).2
        5 "Pay rent" "" 20).1.id
      = (TaskService.createTask ⟨[]⟩ 5 "Buy milk" "2% fat" 10).1.id ∧
    (TaskService.createTask ⟨[]⟩ 5 "Buy milk" "2% fat" 10).1
      ∈ (TaskService.createTask
          (TaskService.createTask ⟨[]⟩ 5 "Buy milk" "2% fat" 10).2
          5 "Pay rent" "" 20).2.tasks ∧
    (TaskService.createTask
        (TaskService.createTask ⟨[]⟩ 5 "Buy milk" "2% fat" 10).2
        5 "Pay rent" "" 20).1
      ∈ (TaskService.createTask
          (TaskService.createTask ⟨[]⟩ 5 "Buy milk" "2% fat" 10).2
          5 "Pay rent" "" 20).2.tasks ∧
    (TaskService.createTask ⟨[]⟩ 5 "Buy milk" "2% fat" 10).1
      ≠ (TaskService.createTask
          (TaskService.createTask ⟨[]⟩ 5 "Buy milk" "2% fat" 10).2
          5 "Pay rent" "" 20).1 := by
  decide

theorem createAll_tasks (inputs : List (Nat × String × String × Nat))
    (r : TaskRepository) :
    (createAll r inputs).tasks
      = r.tasks
        ++ inputs.map fun q => (⟨q.1, q.2.1, q.2.2.1, q.2.2.2, "pendente"⟩ : Task) := by
  induction inputs generalizing r with
  | nil => simp [createAll]
  | cons q rest ih =>
    obtain ⟨now, title, description, dueDate⟩ := q
    simp [createAll, TaskService.createTask, TaskRepository.adicionarTarefa, ih]

/-- C1 (amended): the ids `createTask` assigns are the observed `Date.now()`
values, so when those values are pairwise distinct across the create calls
and distinct from the ids already stored, every id in the store stays
unique — the store never holds two tasks with the same id. -/
theorem create_ids_unique_of_distinct_timestamps (r : TaskRepository)
    (inputs : List (Nat × String × String × Nat))
    (h : (r.tasks.map Task.id ++ inputs.map fun q => q.1).Nodup) :
    ((createAll r inputs).tasks.map Task.id).Nodup := by
  rw [createAll_tasks, List.map_append, List.map_map]
  exact h

theorem create_ids_unique_of_distinct_timestamps_witness :
    ((createAll ⟨[]⟩
        [(1, "a", "b", 0), (2, "c", "d", 0)]).tasks.map Task.id).Nodup :=
  create_ids_unique_of_distinct_timestamps ⟨[]⟩
    [(1, "a", "b", 0), (2, "c", "d", 0)] (by decide)

/-- C3 (counterexample): when the store already holds a task whose id
equals the `Date.now()` value `createTask` observes, `buscarTarefaPorId`
on the new task's id returns that earlier task — the first match — and not
the newly created one. -/
theorem create_spec_counterexample :
    (TaskService.createTask ⟨[⟨5, "old", "od", 0, "pendente"⟩]⟩
        5 "new" "nd" 1).2.buscarTarefaPorId
        (TaskService.createTask ⟨[⟨5, "old", "od", 0, "pendente"⟩]⟩
          5 "new" "nd" 1).1.id
      = some ⟨5, "old", "od", 0, "pendente"⟩ ∧
    (⟨5, "old", "od", 0, "pendente"⟩ : Task)
      ≠ (TaskService.createTask ⟨[⟨5, "old", "od", 0, "pendente"⟩]⟩
          5 "new" "nd" 1).1 := by
  decide

/-- C3 (amended): provided no task already in the store carries the
generated id (the observed `Date.now()` value), after `createTask` the
returned task has status `"pendente"`, the stored list is the old list with
the new task appended at the end, it holds exactly one task equal to the
new one, and `buscarTarefaPorId` on its id returns it. -/
theorem create_spec (r : TaskRepository) (now : Nat)
    (title description : String) (dueDate : Nat)
    (h : ∀ u ∈ r.tasks, u.id ≠ now) :
    (TaskService.createTask r now title description dueDate).1.status
        = "pendente" ∧
    (TaskService.createTask r now title description dueDate).2.tasks
      = r.tasks ++ [(TaskService.createTask r now title description dueDate).1] ∧
    (TaskService.createTask r now title description dueDate).2.tasks.count
        (TaskService.createTask r now title description dueDate).1 = 1 ∧
    (TaskService.createTask r now title description dueDate).2.buscarTarefaPorId
        (TaskService.createTask r now title description dueDate).1.id
      = some (TaskService.createTask r now title description dueDate).1 := by
  refine ⟨rfl, rfl, ?_, ?_⟩
  · show (r.tasks
        ++ [(⟨now, title, description, dueDate, "pendente"⟩ : Task)]).count
        (⟨now, title, description, dueDate, "pendente"⟩ : Task) = 1
    rw [List.count_append]
    have hnot : (⟨now, title, description, dueDate, "pendente"⟩ : Task) ∉ r.tasks :=
      fun hmem => h _ hmem rfl
    rw [List.count_eq_zero.mpr hnot]
    simp
  · show ((r.tasks
        ++ [(⟨now, title, description, dueDate, "pendente"⟩ : Task)]).find?
        fun u => u.id == now)
      = some (⟨now, title, description, dueDate, "pendente"⟩ : Task)
    rw [List.find?_append,
      List.find?_eq_none.mpr fun x hx => by simpa using h x hx,
      Option.none_or]
    exact List.find?_cons_of_pos _ (by simp)

theorem create_spec_witness :
    (TaskService.createTask ⟨[]⟩ 3 "t" "d" 9).1.status = "pendente" ∧
    (TaskService.createTask ⟨[]⟩ 3 "t" "d" 9).2.tasks
      = (⟨[]⟩ : TaskRepository).tasks ++ [(TaskService.createTask ⟨[]⟩ 3 "t" "d" 9).1] ∧
    (TaskService.createTask ⟨[]⟩ 3 "t" "d" 9).2.tasks.count
        (TaskService.createTask ⟨[]⟩ 3 "t" "d" 9).1 = 1 ∧
    (TaskService.createTask ⟨[]⟩ 3 "t" "d" 9).2.buscarTarefaPorId
        (TaskService.createTask ⟨[]⟩ 3 "t" "d" 9).1.id
      = some (TaskService.createTask ⟨[]⟩ 3 "t" "d" 9).1 :=
  create_spec ⟨[]⟩ 3 "t" "d" 9 (by decide)

end TaskManager
